import Mathlib

set_option autoImplicit false

namespace Battleships

/-!
Shallow embedding of `src/strategy/strategy.py` (class `Strategy`) and of the
`BoardSetup.place_ships` contract of `src/board_setup/board_setup.py`.

Python `list` indexing (`board[y][x]`) resolves negative indices by wrapping
from the end and raises `IndexError` otherwise; `pyIdx`/`pySetCell` model this,
with `none` standing for a raised `IndexError`.  Python `set` objects are
modelled as `Finset (Int × Int)`; the `dict[int, int]` catalog is modelled as
an association list with first-match lookup/update.
-/

/-- Resolve a Python list index against a list of length `n`:
nonnegative indices must be `< n`, negative indices wrap once from the end,
anything else is an `IndexError` (`none`). -/
def pyIdx (n : Nat) (i : Int) : Option Nat :=
  if 0 ≤ i then (if i < (n : Int) then some i.toNat else none)
  else (if 0 ≤ i + (n : Int) then some (i + (n : Int)).toNat else none)

/-- The Python statement `board[y][x] = c` on a list-of-lists board:
`none` models a raised `IndexError`. -/
def pySetCell (b : List (List Char)) (y x : Int) (c : Char) :
    Option (List (List Char)) := do
  let yi ← pyIdx b.length y
  let row ← b[yi]?
  let xi ← pyIdx row.length x
  some (b.set yi (row.set xi c))

/-- Read the board cell at column `x`, row `y` (plain nonnegative indices). -/
def cellAt (b : List (List Char)) (x y : Nat) : Option Char :=
  (b[y]?).bind (fun row => row[x]?)

/-- In-bounds write of the miss symbol, as performed by
`mark_surrounding_cells` after its explicit bounds guard. -/
def setMiss (b : List (List Char)) (x y : Nat) : List (List Char) :=
  match b[y]? with
  | some row => b.set y (row.set x 'M')
  | none => b

/-- State of `strategy.Strategy`, field for field. -/
structure Strategy where
  rows : Int
  cols : Int
  ships_dict : List (Int × Int)
  enemy_board : List (List Char)
  shots_fired : Finset (Int × Int)
  missed_shots : Finset (Int × Int)
  hit_queue : List (Int × Int)
  current_hits : List (Int × Int)
  available_shots : Finset (Int × Int)

/-- The set comprehension `{(x, y) for x in range(cols) for y in range(rows)}`. -/
def allCells (cols rows : Int) : Finset (Int × Int) :=
  Finset.Icc 0 (cols - 1) ×ˢ Finset.Icc 0 (rows - 1)

/-- `Strategy.__init__`. -/
def Strategy.init (rows cols : Int) (ships : List (Int × Int)) : Strategy :=
  { rows := rows
    cols := cols
    ships_dict := ships
    enemy_board := List.replicate rows.toNat (List.replicate cols.toNat '?')
    shots_fired := ∅
    missed_shots := ∅
    hit_queue := []
    current_hits := []
    available_shots := allCells cols rows }

/-- `Strategy.get_random_shot`; `pick` stands for `random.choice`. -/
def get_random_shot (s : Strategy) (pick : Finset (Int × Int) → Int × Int) :
    Option (Int × Int) :=
  if s.available_shots = ∅ then none else some (pick s.available_shots)

/-- `Strategy.get_next_attack`: pop the front of `hit_queue` when non-empty,
otherwise fall back to a random shot.  Returns the value and the new state. -/
def get_next_attack (s : Strategy) (pick : Finset (Int × Int) → Int × Int) :
    Option (Int × Int) × Strategy :=
  match s.hit_queue with
  | c :: rest => (some c, { s with hit_queue := rest })
  | [] => (get_random_shot s pick, s)

/-- First-match lookup in the catalog (`ship_size in d` plus `d[ship_size]`). -/
def dictLookup : List (Int × Int) → Int → Option Int
  | [], _ => none
  | p :: rest, k => if p.1 = k then some p.2 else dictLookup rest k

/-- Update the binding of key `k` (Python `d[k] = v` on an existing key;
appends when absent, which `identify_sunk_ship` never does). -/
def dictSet : List (Int × Int) → Int → Int → List (Int × Int)
  | [], k, v => [(k, v)]
  | p :: rest, k, v => if p.1 = k then (k, v) :: rest else p :: dictSet rest k v

/-- `Strategy.identify_sunk_ship`. -/
def identify_sunk_ship (s : Strategy) : Strategy :=
  let ship_size : Int := s.current_hits.length
  match dictLookup s.ships_dict ship_size with
  | some c =>
      if 0 < c then
        { s with ships_dict := dictSet s.ships_dict ship_size (c - 1) }
      else s
  | none => s

/-- The four orthogonal neighbour offsets used in `get_adjacent_cells` and
`mark_surrounding_cells`, in source order. -/
def neighbors4 (c : Int × Int) : List (Int × Int) :=
  [(c.1 - 1, c.2), (c.1 + 1, c.2), (c.1, c.2 - 1), (c.1, c.2 + 1)]

/-- One iteration of the inner loop of `mark_surrounding_cells`: if the
neighbour is in bounds, discard it from `available_shots` and write `'M'`. -/
def markCell (s : Strategy) (n : Int × Int) : Strategy :=
  if 0 ≤ n.1 ∧ n.1 < s.cols ∧ 0 ≤ n.2 ∧ n.2 < s.rows then
    { s with
      available_shots := s.available_shots.erase n
      enemy_board := setMiss s.enemy_board n.1.toNat n.2.toNat }
  else s

/-- `Strategy.mark_surrounding_cells`. -/
def mark_surrounding_cells (s : Strategy) : Strategy :=
  s.current_hits.foldl (fun st c => (neighbors4 c).foldl markCell st) s

/-- `Strategy.get_adjacent_cells`. -/
def get_adjacent_cells (s : Strategy) (x y : Int) : List (Int × Int) :=
  (neighbors4 (x, y)).filter
    (fun c =>
      decide (0 ≤ c.1 ∧ c.1 < s.cols ∧ 0 ≤ c.2 ∧ c.2 < s.rows ∧
        c ∈ s.available_shots))

/-- `Strategy.get_target_cells`.  The Python code destructures
`zip(*self.current_hits)` and therefore raises on an empty run; the only call
site appends a hit first, so the `[]` branch is unreachable and is mapped to
`[]` here. -/
def get_target_cells (s : Strategy) : List (Int × Int) :=
  match s.current_hits with
  | [] => []
  | [(x, y)] => get_adjacent_cells s x y
  | (x0, y0) :: rest =>
      let xs := ((x0, y0) :: rest).map Prod.fst
      let ys := ((x0, y0) :: rest).map Prod.snd
      let targets :=
        if xs.all (fun a => a == x0) then
          [(x0, ys.foldl min y0 - 1), (x0, ys.foldl max y0 + 1)]
        else
          [(xs.foldl min x0 - 1, y0), (xs.foldl max x0 + 1, y0)]
      targets.filter (fun c => decide (c ∈ s.available_shots))

/-- `Strategy.register_attack`; `none` models a raised `IndexError` from the
unguarded board write. -/
def register_attack (s : Strategy) (x y : Int) (is_hit is_sunk : Bool) :
    Option Strategy :=
  let s1 : Strategy :=
    { s with
      shots_fired := insert (x, y) s.shots_fired
      available_shots := s.available_shots.erase (x, y) }
  match pySetCell s1.enemy_board y x (if is_hit then 'H' else 'M') with
  | none => none
  | some b =>
      let s2 := { s1 with enemy_board := b }
      if is_hit then
        let s3 := { s2 with current_hits := s2.current_hits ++ [(x, y)] }
        if is_sunk then
          let s4 := mark_surrounding_cells (identify_sunk_ship s3)
          some { s4 with hit_queue := [], current_hits := [] }
        else
          some { s3 with hit_queue := s3.hit_queue ++ get_target_cells s3 }
      else
        some { s2 with missed_shots := insert (x, y) s2.missed_shots }

/-- `Strategy.all_ships_sunk`. -/
def all_ships_sunk (s : Strategy) : Bool :=
  s.ships_dict.all (fun p => p.2 == 0)

/-- Sum of the remaining-ship counts of the catalog. -/
def sumCounts (d : List (Int × Int)) : Int := (d.map Prod.snd).sum

/-- Apply a sequence of `register_attack` calls
(each entry is `(x, y, is_hit, is_sunk)`). -/
def applyTrace (s : Strategy) : List (Int × Int × Bool × Bool) → Option Strategy
  | [] => some s
  | m :: rest =>
      (register_attack s m.1 m.2.1 m.2.2.1 m.2.2.2).bind
        (fun s2 => applyTrace s2 rest)

/-- A board with `rows` rows of `cols` cells each. -/
def WFB (b : List (List Char)) (rows cols : Nat) : Prop :=
  b.length = rows ∧ ∀ row ∈ b, row.length = cols

/-- Well-formed board: `rows` rows of `cols` cells each, as `__init__` builds. -/
def WFBoard (s : Strategy) : Prop :=
  WFB s.enemy_board s.rows.toNat s.cols.toNat

instance (b : List (List Char)) (rows cols : Nat) :
    Decidable (WFB b rows cols) := by
  unfold WFB
  infer_instance

instance (s : Strategy) : Decidable (WFBoard s) := by
  unfold WFBoard
  infer_instance

/-! ### The folds of `mark_surrounding_cells` -/

/-- `mark_surrounding_cells` as a fold over an arbitrary hit list. -/
def markAll (s : Strategy) (hs : List (Int × Int)) : Strategy :=
  hs.foldl (fun st c => (neighbors4 c).foldl markCell st) s

/-- All fields except the board and the candidate set agree. -/
def SameFrame (t s : Strategy) : Prop :=
  t.rows = s.rows ∧ t.cols = s.cols ∧ t.ships_dict = s.ships_dict ∧
    t.shots_fired = s.shots_fired ∧ t.missed_shots = s.missed_shots ∧
    t.hit_queue = s.hit_queue ∧ t.current_hits = s.current_hits

/-! ### Unfolding `register_attack` on in-bounds coordinates -/

/-- The intermediate state `s3` of a hit call: bookkeeping plus run append. -/
def hitState (s : Strategy) (x y : Int) (b : List (List Char)) : Strategy :=
  { s with
    shots_fired := insert (x, y) s.shots_fired
    available_shots := s.available_shots.erase (x, y)
    enemy_board := b
    current_hits := s.current_hits ++ [(x, y)] }

/-- The final state of a miss call. -/
def missState (s : Strategy) (x y : Int) (b : List (List Char)) : Strategy :=
  { s with
    shots_fired := insert (x, y) s.shots_fired
    available_shots := s.available_shots.erase (x, y)
    enemy_board := b
    missed_shots := insert (x, y) s.missed_shots }

/-! ### The spec-side description of target candidates (§4.2 item 3) -/

/-- The in-bounds predicate of §6: `0 ≤ x < cols` and `0 ≤ y < rows`. -/
def inBoundsCell (cols rows : Int) (c : Int × Int) : Prop :=
  0 ≤ c.1 ∧ c.1 < cols ∧ 0 ≤ c.2 ∧ c.2 < rows

instance (cols rows : Int) (c : Int × Int) :
    Decidable (inBoundsCell cols rows c) := by
  unfold inBoundsCell
  infer_instance

/-- Target candidates as the spec words them: the four orthogonal neighbours
of a one-cell run, or the two cells immediately beyond the extremes of the
run's shared axis, each filtered to in-bounds, still-candidate cells. -/
def specTargets (cols rows : Int) (avail : Finset (Int × Int)) :
    List (Int × Int) → List (Int × Int)
  | [] => []
  | [c] =>
      (neighbors4 c).filter
        (fun n => decide (inBoundsCell cols rows n ∧ n ∈ avail))
  | c :: rest =>
      if ((c :: rest).all (fun d => d.1 == c.1)) then
        [(c.1, ((c :: rest).map Prod.snd).foldl min c.2 - 1),
         (c.1, ((c :: rest).map Prod.snd).foldl max c.2 + 1)].filter
          (fun n => decide (inBoundsCell cols rows n ∧ n ∈ avail))
      else if ((c :: rest).all (fun d => d.2 == c.2)) then
        [(((c :: rest).map Prod.fst).foldl min c.1 - 1, c.2),
         (((c :: rest).map Prod.fst).foldl max c.1 + 1, c.2)].filter
          (fun n => decide (inBoundsCell cols rows n ∧ n ∈ avail))
      else []

/-! ### Claim C1 -/

/-- A deterministic stand-in for `random.choice`, never consulted in the C1
trace because the queue is non-empty at every draw. -/
def c1Pick : Finset (Int × Int) → Int × Int := fun _ => (0, 0)

/-- Draw the next attack and check it is the expected coordinate, so that the
trace below is driven entirely by `get_next_attack`. -/
def c1Step (s : Strategy) (c : Int × Int) : Option Strategy :=
  let r := get_next_attack s c1Pick
  if r.1 = some c then some r.2 else none

/-- A legal play on a 5×5 board: hits at (2,2), (1,2), (3,2) and misses at
(2,1), (2,3), (0,2), every fired coordinate obtained from
`get_next_attack` and fired exactly once. -/
def c1Trace : Option Strategy := do
  let s1 ← register_attack (Strategy.init 5 5 [(9, 1)]) 2 2 true false
  let s1 ← c1Step s1 (1, 2)
  let s2 ← register_attack s1 1 2 true false
  let s2 ← c1Step s2 (3, 2)
  let s3 ← register_attack s2 3 2 true false
  let s3 ← c1Step s3 (2, 1)
  let s4 ← register_attack s3 2 1 false false
  let s4 ← c1Step s4 (2, 3)
  let s5 ← register_attack s4 2 3 false false
  let s5 ← c1Step s5 (0, 2)
  register_attack s5 0 2 false false

/-! ### Claim C8: `place_ships`, modelled from the spec -/

/-- An all-water ownership board (`0` = water, as `BoardSetup.__init__`). -/
def emptyOwnBoard (rows cols : Nat) : List (List Int) :=
  List.replicate rows (List.replicate cols 0)

/-- Read an ownership-board cell at column `x`, row `y`. -/
def ownCellAt (b : List (List Int)) (x y : Nat) : Option Int :=
  (b[y]?).bind (fun r => r[x]?)

/-- Guarded ownership-board write. -/
def setOwn (b : List (List Int)) (x y : Nat) (v : Int) : List (List Int) :=
  match b[y]? with
  | some row => b.set y (row.set x v)
  | none => b

/-- Absolute cells of a shape orientation translated to an anchor. -/
def addOffsets (anchor : Int × Int) (offs : List (Int × Int)) :
    List (Int × Int) :=
  offs.map (fun o => (anchor.1 + o.1, anchor.2 + o.2))

/-- All cells in-bounds and currently water. -/
def cellsOk (rows cols : Nat) (b : List (List Int))
    (cells : List (Int × Int)) : Bool :=
  cells.all (fun c =>
    decide (0 ≤ c.1 ∧ c.1 < (cols : Int) ∧ 0 ≤ c.2 ∧ c.2 < (rows : Int)) &&
      (ownCellAt b c.1.toNat c.2.toNat == some 0))

/-- No in-bounds cell orthogonally adjacent to the new shape (its own cells
excluded) is occupied. -/
def adjOk (rows cols : Nat) (b : List (List Int))
    (cells : List (Int × Int)) : Bool :=
  (cells.flatMap neighbors4).all (fun n =>
    decide (n ∈ cells) ||
      !(decide (0 ≤ n.1 ∧ n.1 < (cols : Int) ∧ 0 ≤ n.2 ∧ n.2 < (rows : Int))) ||
      (ownCellAt b n.1.toNat n.2.toNat == some 0))

/-- Write a ship id over a cell set. -/
def writeCells (b : List (List Int)) (cells : List (Int × Int)) (v : Int) :
    List (List Int) :=
  cells.foldl (fun bb c => setOwn bb c.1.toNat c.2.toNat v) b

/-- Expand a catalog `{ship_id: count}` into a list of ship instances. -/
def expandCatalog (catalog : List (Int × Nat)) : List Int :=
  catalog.flatMap (fun p => List.replicate p.2 p.1)

/-- Modelled from the spec: one ship instance is placed by repeatedly (up to
a per-instance retry budget) sampling a random anchor cell and orientation,
accepting when all cells are in-bounds, water, and not orthogonally adjacent
to another ship; `rng` is the injected randomness source of §5 and the `Nat`
counter its read position. -/
def tryPlaceInstance (rows cols : Nat) (shapes : Int → List (List (Int × Int)))
    (rng : Nat → Nat) (b : List (List Int)) (id : Int) :
    Nat → Nat → Option (List (List Int) × Nat)
  | 0, _ => none
  | fuel + 1, t =>
      let orients := shapes id
      let anchorIdx := rng t % (rows * cols)
      let anchor : Int × Int :=
        ((anchorIdx % cols : Nat), (anchorIdx / cols : Nat))
      let orient := orients.getD (rng (t + 1) % orients.length) []
      let cells := addOffsets anchor orient
      if cellsOk rows cols b cells && adjOk rows cols b cells then
        some (writeCells b cells id, t + 2)
      else
        tryPlaceInstance rows cols shapes rng b id fuel (t + 2)

/-- Modelled from the spec: greedy single pass over the ship instances. -/
def placeInstances (rows cols : Nat) (shapes : Int → List (List (Int × Int)))
    (rng : Nat → Nat) (inner : Nat) :
    List Int → List (List Int) → Nat → Option (List (List Int) × Nat)
  | [], b, t => some (b, t)
  | id :: rest, b, t =>
      match tryPlaceInstance rows cols shapes rng b id inner t with
      | none => none
      | some (b2, t2) => placeInstances rows cols shapes rng inner rest b2 t2

/-- Modelled from the spec: `BoardSetup.place_ships` is declared in
`src/board_setup/board_setup.py` but its body is an unimplemented stub that
raises `NotImplementedError`; §4.1 of the spec defines the algorithm this
definition follows.  A failed single pass restarts the whole placement from
an empty board up to an outer retry budget; exhausting it is the
`PlacementError` (`Except.error`). -/
def place_ships (rows cols : Nat) (catalog : List (Int × Nat))
    (shapes : Int → List (List (Int × Int))) (rng : Nat → Nat)
    (inner : Nat) : Nat → Nat → Except Unit (List (List Int))
  | 0, _ => Except.error ()
  | outer + 1, t =>
      match placeInstances rows cols shapes rng inner (expandCatalog catalog)
          (emptyOwnBoard rows cols) t with
      | some (b, _) => Except.ok b
      | none => place_ships rows cols catalog shapes rng inner outer (t + 1)

/-! ### Cell-level description of board writes -/

theorem WFB_replicate (rows cols : Nat) :
    WFB (List.replicate rows (List.replicate cols '?')) rows cols := by
  constructor
  · simp
  · intro row hrow
    rw [List.eq_of_mem_replicate hrow]
    simp

theorem cellAt_set_row (b : List (List Char)) (y : Nat) (row' : List Char)
    (i j : Nat) :
    cellAt (b.set y row') i j =
      if y = j ∧ y < b.length then row'[i]? else cellAt b i j := by
  unfold cellAt
  rw [List.getElem?_set]
  by_cases h : y = j
  · subst h
    by_cases h2 : y < b.length
    · simp [h2]
    · simp [h2, List.getElem?_eq_none (Nat.le_of_not_lt h2)]
  · simp [h]

theorem cellAt_of_getElem? (b : List (List Char)) (row : List Char) (i j : Nat)
    (h : b[j]? = some row) : cellAt b i j = row[i]? := by
  unfold cellAt
  rw [h]
  rfl

/-- Writing character `c` at column `x`, row `y` changes exactly that cell. -/
theorem cellAt_write (b : List (List Char)) (x y : Nat) (row : List Char)
    (hrow : b[y]? = some row) (hx : x < row.length) (c : Char) (i j : Nat) :
    cellAt (b.set y (row.set x c)) i j =
      if i = x ∧ j = y then some c else cellAt b i j := by
  have hy : y < b.length := by
    rcases List.getElem?_eq_some.mp hrow with ⟨h1, _⟩
    exact h1
  rw [cellAt_set_row]
  by_cases hj : j = y
  · subst hj
    rw [if_pos ⟨rfl, hy⟩, List.getElem?_set]
    by_cases hi : i = x
    · subst hi
      rw [if_pos rfl, if_pos hx, if_pos ⟨rfl, rfl⟩]
    · rw [if_neg (fun h => hi h.symm), if_neg (fun h => hi h.1),
        cellAt_of_getElem? b row i j hrow]
  · rw [if_neg (fun h => hj h.1.symm), if_neg (fun h => hj h.2)]

theorem WFB_set_row (b : List (List Char)) (rows cols : Nat) (h : WFB b rows cols)
    (y : Nat) (row' : List Char) (hrow' : row'.length = cols) :
    WFB (b.set y row') rows cols := by
  obtain ⟨hlen, hall⟩ := h
  constructor
  · simp [hlen]
  · intro r hr
    rcases List.mem_or_eq_of_mem_set hr with hmem | heq
    · exact hall r hmem
    · rw [heq]; exact hrow'

theorem WFB_write (b : List (List Char)) (rows cols : Nat) (h : WFB b rows cols)
    (x y : Nat) (row : List Char) (hrow : b[y]? = some row) (c : Char) :
    WFB (b.set y (row.set x c)) rows cols := by
  refine WFB_set_row b rows cols h y _ ?_
  have : row ∈ b := by
    rcases List.getElem?_eq_some.mp hrow with ⟨h1, h2⟩
    exact h2 ▸ List.getElem_mem h1
  simp [h.2 row this]

theorem setMiss_eq_of_none (b : List (List Char)) (x y : Nat)
    (hrow : b[y]? = none) : setMiss b x y = b := by
  unfold setMiss
  rw [hrow]

theorem setMiss_eq_of_some (b : List (List Char)) (x y : Nat) (row : List Char)
    (hrow : b[y]? = some row) : setMiss b x y = b.set y (row.set x 'M') := by
  unfold setMiss
  rw [hrow]

/-- `setMiss` changes a cell to `'M'` or leaves it alone. -/
theorem cellAt_setMiss_spec (b : List (List Char)) (x y i j : Nat) :
    cellAt (setMiss b x y) i j = cellAt b i j ∨
      (i = x ∧ j = y ∧ cellAt (setMiss b x y) i j = some 'M') := by
  cases hrow : b[y]? with
  | none =>
      left
      rw [setMiss_eq_of_none b x y hrow]
  | some row =>
      rw [setMiss_eq_of_some b x y row hrow]
      by_cases hx : x < row.length
      · rw [cellAt_write b x y row hrow hx 'M' i j]
        by_cases hij : i = x ∧ j = y
        · right
          exact ⟨hij.1, hij.2, if_pos hij⟩
        · left
          exact if_neg hij
      · left
        rw [List.set_eq_of_length_le (Nat.le_of_not_lt hx), cellAt_set_row]
        by_cases hj : y = j ∧ y < b.length
        · rw [if_pos hj, cellAt_of_getElem? b row i j (hj.1 ▸ hrow)]
        · rw [if_neg hj]

theorem cellAt_setMiss_self (b : List (List Char)) (x y : Nat) (row : List Char)
    (hrow : b[y]? = some row) (hx : x < row.length) :
    cellAt (setMiss b x y) x y = some 'M' := by
  rw [setMiss_eq_of_some b x y row hrow,
    cellAt_write b x y row hrow hx 'M' x y, if_pos ⟨rfl, rfl⟩]

theorem WFB_setMiss (b : List (List Char)) (rows cols : Nat) (h : WFB b rows cols)
    (x y : Nat) : WFB (setMiss b x y) rows cols := by
  cases hrow : b[y]? with
  | none => rw [setMiss_eq_of_none b x y hrow]; exact h
  | some row =>
      rw [setMiss_eq_of_some b x y row hrow]
      exact WFB_write b rows cols h x y row hrow 'M'

theorem mark_surrounding_cells_eq_markAll (s : Strategy) :
    mark_surrounding_cells s = markAll s s.current_hits := rfl

theorem sameFrame_refl (s : Strategy) : SameFrame s s :=
  ⟨rfl, rfl, rfl, rfl, rfl, rfl, rfl⟩

theorem sameFrame_trans {a b c : Strategy} (h1 : SameFrame a b)
    (h2 : SameFrame b c) : SameFrame a c := by
  obtain ⟨u1, u2, u3, u4, u5, u6, u7⟩ := h1
  obtain ⟨v1, v2, v3, v4, v5, v6, v7⟩ := h2
  exact ⟨u1.trans v1, u2.trans v2, u3.trans v3, u4.trans v4, u5.trans v5,
    u6.trans v6, u7.trans v7⟩

theorem markCell_sameFrame (s : Strategy) (n : Int × Int) :
    SameFrame (markCell s n) s := by
  unfold markCell
  split
  · exact ⟨rfl, rfl, rfl, rfl, rfl, rfl, rfl⟩
  · exact sameFrame_refl s

theorem foldl_markCell_sameFrame (ns : List (Int × Int)) (s : Strategy) :
    SameFrame (ns.foldl markCell s) s := by
  induction ns generalizing s with
  | nil => exact sameFrame_refl s
  | cons n rest ih =>
      exact sameFrame_trans (ih (markCell s n)) (markCell_sameFrame s n)

theorem markAll_sameFrame (s : Strategy) (hs : List (Int × Int)) :
    SameFrame (markAll s hs) s := by
  induction hs generalizing s with
  | nil => exact sameFrame_refl s
  | cons c rest ih =>
      exact sameFrame_trans (ih ((neighbors4 c).foldl markCell s))
        (foldl_markCell_sameFrame (neighbors4 c) s)

theorem markCell_avail_subset (s : Strategy) (n : Int × Int) :
    (markCell s n).available_shots ⊆ s.available_shots := by
  unfold markCell
  split
  · exact Finset.erase_subset _ _
  · exact Finset.Subset.refl _

theorem foldl_markCell_avail_subset (ns : List (Int × Int)) (s : Strategy) :
    (ns.foldl markCell s).available_shots ⊆ s.available_shots := by
  induction ns generalizing s with
  | nil => exact Finset.Subset.refl _
  | cons n rest ih =>
      exact (ih (markCell s n)).trans (markCell_avail_subset s n)

theorem markAll_avail_subset (s : Strategy) (hs : List (Int × Int)) :
    (markAll s hs).available_shots ⊆ s.available_shots := by
  induction hs generalizing s with
  | nil => exact Finset.Subset.refl _
  | cons c rest ih =>
      exact (ih ((neighbors4 c).foldl markCell s)).trans
        (foldl_markCell_avail_subset (neighbors4 c) s)

theorem markCell_cell_spec (s : Strategy) (n : Int × Int) (i j : Nat) :
    cellAt (markCell s n).enemy_board i j = cellAt s.enemy_board i j ∨
      (((i : Int), (j : Int)) = n ∧
        cellAt (markCell s n).enemy_board i j = some 'M') := by
  obtain ⟨n1, n2⟩ := n
  unfold markCell
  split
  case isTrue hin =>
    rcases cellAt_setMiss_spec s.enemy_board n1.toNat n2.toNat i j with h | ⟨hi, hj, hM⟩
    · left; exact h
    · right
      refine ⟨?_, hM⟩
      rw [Prod.mk.injEq]
      obtain ⟨g1, _, g3, _⟩ := hin
      constructor <;> omega
  case isFalse => left; rfl

theorem foldl_markCell_cell_spec (ns : List (Int × Int)) (s : Strategy)
    (i j : Nat) :
    cellAt ((ns.foldl markCell s).enemy_board) i j = cellAt s.enemy_board i j ∨
      (((i : Int), (j : Int)) ∈ ns ∧
        cellAt ((ns.foldl markCell s).enemy_board) i j = some 'M') := by
  induction ns generalizing s with
  | nil => left; rfl
  | cons n rest ih =>
      simp only [List.foldl_cons]
      rcases ih (markCell s n) with h | ⟨hmem, hM⟩
      · rw [h]
        rcases markCell_cell_spec s n i j with h2 | ⟨heq, hM⟩
        · left; exact h2
        · right
          exact ⟨heq ▸ List.mem_cons_self n rest, hM⟩
      · right
        exact ⟨List.mem_cons_of_mem n hmem, hM⟩

theorem markAll_cell_spec (hs : List (Int × Int)) (s : Strategy) (i j : Nat) :
    cellAt ((markAll s hs).enemy_board) i j = cellAt s.enemy_board i j ∨
      (((i : Int), (j : Int)) ∈ hs.flatMap neighbors4 ∧
        cellAt ((markAll s hs).enemy_board) i j = some 'M') := by
  induction hs generalizing s with
  | nil => left; rfl
  | cons c rest ih =>
      have hstep : markAll s (c :: rest) =
          markAll ((neighbors4 c).foldl markCell s) rest := rfl
      rw [hstep]
      rcases ih ((neighbors4 c).foldl markCell s) with h | ⟨hmem, hM⟩
      · rw [h]
        rcases foldl_markCell_cell_spec (neighbors4 c) s i j with h2 | ⟨hmem, hM⟩
        · left; exact h2
        · right
          refine ⟨List.mem_flatMap.mpr ⟨c, List.mem_cons_self c rest, hmem⟩, hM⟩
      · right
        refine ⟨?_, hM⟩
        rcases List.mem_flatMap.mp hmem with ⟨d, hd, hnd⟩
        exact List.mem_flatMap.mpr ⟨d, List.mem_cons_of_mem c hd, hnd⟩

theorem pyIdx_eq_of_bounds (n : Nat) (i : Int) (h0 : 0 ≤ i)
    (h1 : i < (n : Int)) : pyIdx n i = some i.toNat := by
  unfold pyIdx
  rw [if_pos h0, if_pos h1]

theorem pySetCell_eq (b : List (List Char)) (rows cols : Nat)
    (h : WFB b rows cols) (x y : Int) (c : Char) (hx : 0 ≤ x)
    (hx2 : x.toNat < cols) (hy : 0 ≤ y) (hy2 : y.toNat < rows) :
    ∃ row, b[y.toNat]? = some row ∧
      pySetCell b y x c = some (b.set y.toNat (row.set x.toNat c)) := by
  have hylen : y.toNat < b.length := by rw [h.1]; exact hy2
  have hrow : b[y.toNat]? = some (b.get ⟨y.toNat, hylen⟩) :=
    List.getElem?_eq_getElem hylen
  refine ⟨b.get ⟨y.toNat, hylen⟩, hrow, ?_⟩
  have hrowlen : (b.get ⟨y.toNat, hylen⟩).length = cols :=
    h.2 _ (List.get_mem b y.toNat hylen)
  have hxi : pyIdx (b.get ⟨y.toNat, hylen⟩).length x = some x.toNat :=
    pyIdx_eq_of_bounds _ x hx (by omega)
  have hyi : pyIdx b.length y = some y.toNat :=
    pyIdx_eq_of_bounds b.length y hy (by omega)
  unfold pySetCell
  simp only [Option.bind_eq_bind, Option.some_bind, hyi, hrow, hxi]

theorem register_attack_miss_eq (s : Strategy) (x y : Int) (k : Bool)
    (hwf : WFBoard s) (hx : 0 ≤ x) (hx2 : x < s.cols) (hy : 0 ≤ y)
    (hy2 : y < s.rows) :
    ∃ row, s.enemy_board[y.toNat]? = some row ∧
      register_attack s x y false k =
        some (missState s x y
          (s.enemy_board.set y.toNat (row.set x.toNat 'M'))) := by
  obtain ⟨row, hrow, hset⟩ :=
    pySetCell_eq s.enemy_board s.rows.toNat s.cols.toNat hwf x y 'M' hx
      (by omega) hy (by omega)
  refine ⟨row, hrow, ?_⟩
  simp [register_attack, hset, missState]

theorem register_attack_hit_eq (s : Strategy) (x y : Int)
    (hwf : WFBoard s) (hx : 0 ≤ x) (hx2 : x < s.cols) (hy : 0 ≤ y)
    (hy2 : y < s.rows) :
    ∃ row, s.enemy_board[y.toNat]? = some row ∧
      register_attack s x y true false =
        some { hitState s x y
                 (s.enemy_board.set y.toNat (row.set x.toNat 'H')) with
               hit_queue := s.hit_queue ++
                 get_target_cells (hitState s x y
                   (s.enemy_board.set y.toNat (row.set x.toNat 'H'))) } := by
  obtain ⟨row, hrow, hset⟩ :=
    pySetCell_eq s.enemy_board s.rows.toNat s.cols.toNat hwf x y 'H' hx
      (by omega) hy (by omega)
  refine ⟨row, hrow, ?_⟩
  simp [register_attack, hset, hitState]

theorem register_attack_sunk_eq (s : Strategy) (x y : Int)
    (hwf : WFBoard s) (hx : 0 ≤ x) (hx2 : x < s.cols) (hy : 0 ≤ y)
    (hy2 : y < s.rows) :
    ∃ row, s.enemy_board[y.toNat]? = some row ∧
      register_attack s x y true true =
        some { mark_surrounding_cells (identify_sunk_ship (hitState s x y
                 (s.enemy_board.set y.toNat (row.set x.toNat 'H')))) with
               hit_queue := [], current_hits := [] } := by
  obtain ⟨row, hrow, hset⟩ :=
    pySetCell_eq s.enemy_board s.rows.toNat s.cols.toNat hwf x y 'H' hx
      (by omega) hy (by omega)
  refine ⟨row, hrow, ?_⟩
  simp [register_attack, hset, hitState]

/-! ### `identify_sunk_ship` and catalog lemmas -/

theorem identify_sunk_ship_fields (s : Strategy) :
    (identify_sunk_ship s).rows = s.rows ∧
    (identify_sunk_ship s).cols = s.cols ∧
    (identify_sunk_ship s).enemy_board = s.enemy_board ∧
    (identify_sunk_ship s).shots_fired = s.shots_fired ∧
    (identify_sunk_ship s).missed_shots = s.missed_shots ∧
    (identify_sunk_ship s).hit_queue = s.hit_queue ∧
    (identify_sunk_ship s).current_hits = s.current_hits ∧
    (identify_sunk_ship s).available_shots = s.available_shots := by
  simp only [identify_sunk_ship]
  split
  · split
    · exact ⟨rfl, rfl, rfl, rfl, rfl, rfl, rfl, rfl⟩
    · exact ⟨rfl, rfl, rfl, rfl, rfl, rfl, rfl, rfl⟩
  · exact ⟨rfl, rfl, rfl, rfl, rfl, rfl, rfl, rfl⟩

/-- What `identify_sunk_ship` does to the catalog: a decrement happens only
when the run length is a key with positive count. -/
theorem identify_sunk_ship_dict (s : Strategy) :
    ((identify_sunk_ship s).ships_dict = s.ships_dict ∧
      (dictLookup s.ships_dict (s.current_hits.length : Int) = none ∨
        ∃ c, dictLookup s.ships_dict (s.current_hits.length : Int) = some c ∧
          c ≤ 0)) ∨
      ∃ c, dictLookup s.ships_dict (s.current_hits.length : Int) = some c ∧
        0 < c ∧
        (identify_sunk_ship s).ships_dict =
          dictSet s.ships_dict (s.current_hits.length : Int) (c - 1) := by
  simp only [identify_sunk_ship]
  split
  · rename_i c heq
    by_cases hc : 0 < c
    · rw [if_pos hc]
      exact Or.inr ⟨c, heq, hc, rfl⟩
    · rw [if_neg hc]
      exact Or.inl ⟨rfl, Or.inr ⟨c, heq, by omega⟩⟩
  · rename_i heq
    exact Or.inl ⟨rfl, Or.inl heq⟩

theorem dictLookup_dictSet_sum (d : List (Int × Int)) (k c v : Int)
    (h : dictLookup d k = some c) :
    sumCounts (dictSet d k v) = sumCounts d - c + v := by
  induction d with
  | nil => cases h
  | cons p rest ih =>
      by_cases hk : p.1 = k
      · simp only [dictLookup, if_pos hk] at h
        injection h with h
        simp only [dictSet, if_pos hk, sumCounts, List.map_cons, List.sum_cons]
        simp only [sumCounts] at *
        omega
      · simp only [dictLookup, if_neg hk] at h
        simp only [dictSet, if_neg hk, sumCounts, List.map_cons, List.sum_cons]
        have := ih h
        simp only [sumCounts] at this
        omega

theorem dictSet_nonneg (d : List (Int × Int)) (k v : Int)
    (hd : ∀ p ∈ d, 0 ≤ p.2) (hv : 0 ≤ v) :
    ∀ p ∈ dictSet d k v, 0 ≤ p.2 := by
  induction d with
  | nil =>
      intro p hp
      simp only [dictSet, List.mem_singleton] at hp
      rw [hp]
      exact hv
  | cons q rest ih =>
      intro p hp
      by_cases hk : q.1 = k
      · simp only [dictSet, if_pos hk, List.mem_cons] at hp
        rcases hp with hp | hp
        · rw [hp]; exact hv
        · exact hd p (List.mem_cons_of_mem q hp)
      · simp only [dictSet, if_neg hk, List.mem_cons] at hp
        rcases hp with hp | hp
        · rw [hp]; exact hd q (List.mem_cons_self q rest)
        · exact ih (fun r hr => hd r (List.mem_cons_of_mem q hr)) p hp

theorem sumCounts_nonneg (d : List (Int × Int)) (hd : ∀ p ∈ d, 0 ≤ p.2) :
    0 ≤ sumCounts d := by
  refine List.sum_nonneg ?_
  intro a ha
  rcases List.mem_map.mp ha with ⟨p, hp, hpa⟩
  exact hpa ▸ hd p hp

theorem sumCounts_eq_zero_iff (d : List (Int × Int))
    (hd : ∀ p ∈ d, 0 ≤ p.2) :
    sumCounts d = 0 ↔ ∀ p ∈ d, p.2 = 0 := by
  induction d with
  | nil => simp [sumCounts]
  | cons p rest ih =>
      have hrest := ih (fun r hr => hd r (List.mem_cons_of_mem p hr))
      have h0 : 0 ≤ p.2 := hd p (List.mem_cons_self p rest)
      have h1 : 0 ≤ sumCounts rest :=
        sumCounts_nonneg rest (fun r hr => hd r (List.mem_cons_of_mem p hr))
      simp only [sumCounts, List.map_cons, List.sum_cons] at *
      constructor
      · intro hsum q hq
        rcases List.mem_cons.mp hq with hq | hq
        · rw [hq]; omega
        · exact hrest.mp (by omega) q hq
      · intro hall
        have hp0 : p.2 = 0 := hall p (List.mem_cons_self p rest)
        have : (rest.map Prod.snd).sum = 0 :=
          hrest.mpr (fun q hq => hall q (List.mem_cons_of_mem p hq))
        omega

theorem all_ships_sunk_iff (s : Strategy) :
    all_ships_sunk s = true ↔ ∀ p ∈ s.ships_dict, p.2 = 0 := by
  simp [all_ships_sunk, List.all_eq_true]

/-! ### Well-formedness through `mark_surrounding_cells` -/

theorem markCell_WF (s : Strategy) (n : Int × Int) (hwf : WFBoard s) :
    WFBoard (markCell s n) := by
  unfold WFBoard at *
  have hfr := markCell_sameFrame s n
  rw [hfr.1, hfr.2.1]
  unfold markCell
  split
  · exact WFB_setMiss _ _ _ hwf _ _
  · exact hwf

theorem foldl_markCell_WF (ns : List (Int × Int)) :
    ∀ s : Strategy, WFBoard s → WFBoard (ns.foldl markCell s) := by
  induction ns with
  | nil => intro s hwf; exact hwf
  | cons n rest ih =>
      intro s hwf
      exact ih (markCell s n) (markCell_WF s n hwf)

theorem markAll_WF (hs : List (Int × Int)) :
    ∀ s : Strategy, WFBoard s → WFBoard (markAll s hs) := by
  induction hs with
  | nil => intro s hwf; exact hwf
  | cons c rest ih =>
      intro s hwf
      exact ih ((neighbors4 c).foldl markCell s)
        (foldl_markCell_WF (neighbors4 c) s hwf)

/-- Processing a list of neighbours marks every in-bounds member `'M'`
and removes it from the candidate set. -/
theorem foldl_markCell_marks (ns : List (Int × Int)) :
    ∀ (s : Strategy) (n : Int × Int), n ∈ ns → WFBoard s → 0 ≤ n.1 →
      n.1 < s.cols → 0 ≤ n.2 → n.2 < s.rows →
      cellAt ((ns.foldl markCell s).enemy_board) n.1.toNat n.2.toNat
          = some 'M' ∧
        n ∉ (ns.foldl markCell s).available_shots := by
  induction ns with
  | nil => intro s n hn; cases hn
  | cons m rest ih =>
      intro s n hn hwf h1 h2 h3 h4
      simp only [List.foldl_cons]
      by_cases hnm : n = m
      · subst hnm
        have hguard : 0 ≤ n.1 ∧ n.1 < s.cols ∧ 0 ≤ n.2 ∧ n.2 < s.rows :=
          ⟨h1, h2, h3, h4⟩
        have hmc : markCell s n =
            { s with available_shots := s.available_shots.erase n
                     enemy_board :=
                       setMiss s.enemy_board n.1.toNat n.2.toNat } := by
          unfold markCell
          rw [if_pos hguard]
        have hylen : n.2.toNat < s.enemy_board.length := by
          rw [hwf.1]; omega
        have hrow : s.enemy_board[n.2.toNat]? =
            some (s.enemy_board.get ⟨n.2.toNat, hylen⟩) :=
          List.getElem?_eq_getElem hylen
        have hrl : (s.enemy_board.get ⟨n.2.toNat, hylen⟩).length = s.cols.toNat :=
          hwf.2 _ (List.get_mem _ _ hylen)
        have hcell : cellAt (markCell s n).enemy_board n.1.toNat n.2.toNat
            = some 'M' := by
          rw [hmc]
          exact cellAt_setMiss_self _ _ _ _ hrow (by omega)
        have havail : n ∉ (markCell s n).available_shots := by
          rw [hmc]
          simp
        constructor
        · rcases foldl_markCell_cell_spec rest (markCell s n) n.1.toNat n.2.toNat
            with h | ⟨_, hM⟩
          · rw [h]; exact hcell
          · exact hM
        · intro hmem
          exact havail (foldl_markCell_avail_subset rest (markCell s n) hmem)
      · have hn' : n ∈ rest := by
          rcases List.mem_cons.mp hn with h | h
          · exact absurd h hnm
          · exact h
        have hfr := markCell_sameFrame s m
        exact ih (markCell s m) n hn' (markCell_WF s m hwf) h1
          (by rw [hfr.2.1]; exact h2) h3 (by rw [hfr.1]; exact h4)

/-- After the full surrounding-marking pass, every in-bounds orthogonal
neighbour of a processed hit is `'M'` and out of the candidate set. -/
theorem markAll_marks (hs : List (Int × Int)) :
    ∀ (s : Strategy) (c n : Int × Int), c ∈ hs → n ∈ neighbors4 c →
      WFBoard s → 0 ≤ n.1 → n.1 < s.cols → 0 ≤ n.2 → n.2 < s.rows →
      cellAt ((markAll s hs).enemy_board) n.1.toNat n.2.toNat = some 'M' ∧
        n ∉ (markAll s hs).available_shots := by
  induction hs with
  | nil => intro s c n hc; cases hc
  | cons d rest ih =>
      intro s c n hc hn hwf h1 h2 h3 h4
      have hstep : markAll s (d :: rest) =
          markAll ((neighbors4 d).foldl markCell s) rest := rfl
      rw [hstep]
      have hfr := foldl_markCell_sameFrame (neighbors4 d) s
      have hwf1 : WFBoard ((neighbors4 d).foldl markCell s) :=
        foldl_markCell_WF (neighbors4 d) s hwf
      rcases List.mem_cons.mp hc with hcd | hcr
      · subst hcd
        have hinner :=
          foldl_markCell_marks (neighbors4 c) s n hn hwf h1 h2 h3 h4
        constructor
        · rcases markAll_cell_spec rest ((neighbors4 c).foldl markCell s)
            n.1.toNat n.2.toNat with h | ⟨_, hM⟩
          · rw [h]; exact hinner.1
          · exact hM
        · intro hmem
          exact hinner.2
            (markAll_avail_subset ((neighbors4 c).foldl markCell s) rest hmem)
      · exact ih ((neighbors4 d).foldl markCell s) c n hcr hn hwf1 h1
          (by rw [hfr.2.1]; exact h2) h3 (by rw [hfr.1]; exact h4)

theorem mem_allCells (cols rows : Int) (c : Int × Int) :
    c ∈ allCells cols rows ↔ inBoundsCell cols rows c := by
  unfold allCells inBoundsCell
  rw [Finset.mem_product, Finset.mem_Icc, Finset.mem_Icc]
  omega

theorem all_map_comp {A B : Type} (f : A → B) (l : List A) (p : B → Bool) :
    (l.map f).all p = l.all (fun a => p (f a)) := by
  induction l with
  | nil => rfl
  | cons a rest ih => simp [ih]

theorem filter_avail_eq (cols rows : Int) (avail : Finset (Int × Int))
    (hin : ∀ n ∈ avail, inBoundsCell cols rows n) (ts : List (Int × Int)) :
    ts.filter (fun n => decide (n ∈ avail)) =
      ts.filter (fun n => decide (inBoundsCell cols rows n ∧ n ∈ avail)) := by
  refine List.filter_congr ?_
  intro n hn
  rw [decide_eq_decide]
  exact ⟨fun h => ⟨hin n h, h⟩, fun h => h.2⟩

theorem get_adjacent_cells_eq (st : Strategy) (cx cy : Int) :
    get_adjacent_cells st cx cy =
      (neighbors4 (cx, cy)).filter
        (fun n => decide (inBoundsCell st.cols st.rows n ∧
          n ∈ st.available_shots)) := by
  unfold get_adjacent_cells
  refine List.filter_congr ?_
  intro n hn
  rw [decide_eq_decide]
  unfold inBoundsCell
  tauto

/-- On a run that is a straight line (as the spec asserts), the code's
`get_target_cells` computes exactly the candidates the spec describes. -/
theorem get_target_cells_eq_spec (st : Strategy)
    (hsub : st.available_shots ⊆ allCells st.cols st.rows)
    (hax : ∀ c rest, st.current_hits = c :: rest → rest ≠ [] →
      (∀ d ∈ st.current_hits, d.1 = c.1) ∨
        (∀ d ∈ st.current_hits, d.2 = c.2)) :
    get_target_cells st =
      specTargets st.cols st.rows st.available_shots st.current_hits := by
  have hin : ∀ n ∈ st.available_shots, inBoundsCell st.cols st.rows n :=
    fun n hn => (mem_allCells _ _ n).mp (hsub hn)
  cases hch : st.current_hits with
  | nil => simp [get_target_cells, specTargets, hch]
  | cons c rest =>
      obtain ⟨cx, cy⟩ := c
      cases rest with
      | nil =>
          simp only [get_target_cells, specTargets, hch]
          exact get_adjacent_cells_eq st cx cy
      | cons r rs =>
          have hax' := hax (cx, cy) (r :: rs) hch (by simp)
          rw [hch] at hax'
          simp only [get_target_cells, specTargets, hch]
          by_cases hallx : ((cx, cy) :: r :: rs).all (fun d => d.1 == cx)
          · rw [if_pos hallx]
            have hallx2 : (((cx, cy) :: r :: rs).map Prod.fst).all
                (fun a => a == cx) = true := by
              rw [all_map_comp]
              exact hallx
            rw [if_pos hallx2]
            exact filter_avail_eq st.cols st.rows st.available_shots hin _
          · rw [if_neg hallx]
            have hallx2 : ¬((((cx, cy) :: r :: rs).map Prod.fst).all
                (fun a => a == cx) = true) := by
              rw [all_map_comp]
              exact hallx
            rw [if_neg hallx2]
            have hally : ((cx, cy) :: r :: rs).all (fun d => d.2 == cy) = true := by
              rcases hax' with h | h
              · exfalso
                apply hallx
                rw [List.all_eq_true]
                intro d hd
                exact beq_iff_eq.mpr (h d hd)
              · rw [List.all_eq_true]
                intro d hd
                exact beq_iff_eq.mpr (h d hd)
            rw [if_pos hally]
            exact filter_avail_eq st.cols st.rows st.available_shots hin _

/-- C1: the claim that `get_next_attack` never returns a fired-upon
coordinate is violated: the hit queue accumulates a duplicate of (3,2)
(enqueued first as a neighbour of (2,2) and again as the extension of the
run [(2,2),(1,2)]), so after (3,2) has been fired and registered, the queue
still holds it and `get_next_attack` returns it a second time. -/
theorem c1_get_next_attack_refires :
    c1Trace.map
      (fun s => ((get_next_attack s c1Pick).1, decide ((3, 2) ∈ s.shots_fired)))
      = some (some ((3 : Int), (2 : Int)), true) := by decide

/-! ### Claim C2: counterexample -/

/-- C2 counterexample: on a 5×5 board, after a hit at (0,1) the knowledge
grid shows 'H' there; registering the sinking hit at (1,1) runs
`mark_surrounding_cells` over the run [(0,1),(1,1)], which overwrites the
Hit cell (0,1) (an orthogonal neighbour of the run cell (1,1)) with 'M'. -/
theorem c2_counterexample_hit_becomes_miss :
    (applyTrace (Strategy.init 5 5 [(1, 1), (2, 1)]) [(0, 1, true, false)]).map
        (fun s => cellAt s.enemy_board 0 1) = some (some 'H') ∧
      (applyTrace (Strategy.init 5 5 [(1, 1), (2, 1)])
          [(0, 1, true, false), (1, 1, true, true)]).map
          (fun s => cellAt s.enemy_board 0 1) = some (some 'M') := by decide

/-- C2 (amended): for an in-bounds shot from a well-formed state, a
recorded symbol changes in exactly two ways: a sinking call (`is_hit` and
`is_sunk` both true) overwrites with Miss every cell orthogonally adjacent
to a cell of the completed run (the run's own Hit cells included), and the
fired cell itself is rewritten to Hit or Miss according to `is_hit` — so
firing a cell that an earlier sink had pruned to Miss rewrites it to Hit.
Every other cell keeps its symbol. -/
theorem c2_knowledge_monotone_amended (s s' : Strategy) (x y : Int)
    (h k : Bool) (hwf : WFBoard s) (hx : 0 ≤ x) (hx2 : x < s.cols)
    (hy : 0 ≤ y) (hy2 : y < s.rows)
    (hr : register_attack s x y h k = some s') (i j : Nat) :
    (cellAt s.enemy_board i j = some 'M' →
      cellAt s'.enemy_board i j = some 'M' ∨
        (((i : Int), (j : Int)) = (x, y) ∧ h = true ∧
          cellAt s'.enemy_board i j = some 'H')) ∧
    (cellAt s.enemy_board i j = some 'H' →
      cellAt s'.enemy_board i j = some 'H' ∨
        (h = true ∧ k = true ∧
          ((i : Int), (j : Int)) ∈
            (s.current_hits ++ [(x, y)]).flatMap neighbors4 ∧
          cellAt s'.enemy_board i j = some 'M') ∨
        (((i : Int), (j : Int)) = (x, y) ∧ h = false ∧
          cellAt s'.enemy_board i j = some 'M')) := by
  have hrowlen : ∀ row, s.enemy_board[y.toNat]? = some row →
      x.toNat < row.length := by
    intro row hrow
    have hmem : row ∈ s.enemy_board := by
      rcases List.getElem?_eq_some.mp hrow with ⟨hl, he⟩
      exact he ▸ List.getElem_mem hl
    rw [hwf.2 row hmem]
    omega
  have hpair : (i = x.toNat ∧ j = y.toNat) →
      (((i : Int), (j : Int)) : Int × Int) = (x, y) := by
    intro hij
    rw [Prod.mk.injEq]
    obtain ⟨h1, h2⟩ := hij
    constructor <;> omega
  cases h with
  | false =>
      obtain ⟨row, hrow, heq⟩ :=
        register_attack_miss_eq s x y k hwf hx hx2 hy hy2
      rw [hr] at heq
      obtain rfl := (Option.some.injEq _ _).mp heq.symm
      have hcell := cellAt_write s.enemy_board x.toNat y.toNat row hrow
        (hrowlen row hrow) 'M' i j
      have hbd : (missState s x y
          (s.enemy_board.set y.toNat (row.set x.toNat 'M'))).enemy_board =
          s.enemy_board.set y.toNat (row.set x.toNat 'M') := rfl
      rw [hbd, hcell]
      by_cases hij : i = x.toNat ∧ j = y.toNat
      · rw [if_pos hij]
        exact ⟨fun _ => Or.inl rfl,
          fun _ => Or.inr (Or.inr ⟨hpair hij, rfl, rfl⟩)⟩
      · rw [if_neg hij]
        exact ⟨fun hM => Or.inl hM, fun hH => Or.inl hH⟩
  | true =>
      cases k with
      | false =>
          obtain ⟨row, hrow, heq⟩ :=
            register_attack_hit_eq s x y hwf hx hx2 hy hy2
          rw [hr] at heq
          obtain rfl := (Option.some.injEq _ _).mp heq.symm
          have hcell := cellAt_write s.enemy_board x.toNat y.toNat row hrow
            (hrowlen row hrow) 'H' i j
          have hbd : ({ hitState s x y
              (s.enemy_board.set y.toNat (row.set x.toNat 'H')) with
              hit_queue := s.hit_queue ++
                get_target_cells (hitState s x y
                  (s.enemy_board.set y.toNat
                    (row.set x.toNat 'H'))) }).enemy_board =
              s.enemy_board.set y.toNat (row.set x.toNat 'H') := rfl
          rw [hbd, hcell]
          by_cases hij : i = x.toNat ∧ j = y.toNat
          · rw [if_pos hij]
            exact ⟨fun _ => Or.inr ⟨hpair hij, rfl, rfl⟩, fun _ => Or.inl rfl⟩
          · rw [if_neg hij]
            exact ⟨fun hM => Or.inl hM, fun hH => Or.inl hH⟩
      | true =>
          obtain ⟨row, hrow, heq⟩ :=
            register_attack_sunk_eq s x y hwf hx hx2 hy hy2
          rw [hr] at heq
          obtain rfl := (Option.some.injEq _ _).mp heq.symm
          have hcell := cellAt_write s.enemy_board x.toNat y.toNat row hrow
            (hrowlen row hrow) 'H' i j
          set bW := s.enemy_board.set y.toNat (row.set x.toNat 'H') with hbW
          set m := identify_sunk_ship (hitState s x y bW) with hm
          have hmb : m.enemy_board = bW := (identify_sunk_ship_fields _).2.2.1
          have hmch : m.current_hits = s.current_hits ++ [(x, y)] :=
            (identify_sunk_ship_fields _).2.2.2.2.2.2.1
          have hbd : ({ mark_surrounding_cells m with
              hit_queue := [], current_hits := [] }).enemy_board =
              (mark_surrounding_cells m).enemy_board := rfl
          rw [hbd, mark_surrounding_cells_eq_markAll]
          have hold : cellAt m.enemy_board i j =
              if i = x.toNat ∧ j = y.toNat then some 'H'
              else cellAt s.enemy_board i j := by
            rw [hmb, hbW, hcell]
          constructor
          · intro hM
            rcases markAll_cell_spec m.current_hits m i j with hc | ⟨_, hc⟩
            · rw [hc, hold]
              by_cases hij : i = x.toNat ∧ j = y.toNat
              · rw [if_pos hij]
                exact Or.inr ⟨hpair hij, rfl, rfl⟩
              · rw [if_neg hij]
                exact Or.inl hM
            · exact Or.inl hc
          · intro hH
            rcases markAll_cell_spec m.current_hits m i j with hc | ⟨hmem, hc⟩
            · left
              rw [hc, hold]
              by_cases hij : i = x.toNat ∧ j = y.toNat
              · rw [if_pos hij]
              · rw [if_neg hij]
                exact hH
            · right
              left
              exact ⟨rfl, rfl, hmch ▸ hmem, hc⟩

/-- C2 witness: on a 5×5 board with a Miss recorded at (1,1), a further miss
at (3,3) leaves the Miss at (1,1) unchanged (the refire disjunct is ruled
out because (1,1) is not the fired cell), by
`c2_knowledge_monotone_amended` applied at a concrete state. -/
theorem c2_witness :
    cellAt ((register_attack
        ((register_attack (Strategy.init 5 5 [(1, 1)]) 1 1 false false).get
          (by decide)) 3 3 false false).get (by decide)).enemy_board 1 1
        = some 'M' ∨
      ((((1 : Int), (1 : Int)) : Int × Int) = ((3 : Int), (3 : Int)) ∧
        false = true ∧
        cellAt ((register_attack
          ((register_attack (Strategy.init 5 5 [(1, 1)]) 1 1 false false).get
            (by decide)) 3 3 false false).get (by decide)).enemy_board 1 1
          = some 'H') :=
  (c2_knowledge_monotone_amended _ _ 3 3 false false (by decide) (by decide)
    (by decide) (by decide) (by decide) (Option.some_get _).symm 1 1).1
    (by decide)

/-! ### Claim C3 -/

/-- C3 counterexample: with one remaining ship of size 2 (catalog `{2: 1}`),
a `register_attack` call with `is_sunk = true` whose run has length 1
(1 is not a catalog key) leaves the sum of remaining counts at 1 instead of
decreasing it by exactly 1. -/
theorem c3_counterexample_sunk_no_decrement :
    (register_attack (Strategy.init 5 5 [(2, 1)]) 0 0 true true).map
      (fun s => sumCounts s.ships_dict) = some 1 ∧
    sumCounts (Strategy.init 5 5 [(2, 1)]).ships_dict = 1 := by decide

/-- C3 (amended): a hit-and-sunk call decreases the sum of remaining counts
by exactly 1 when the completed run's length is a catalog key with positive
count, and leaves the catalog unchanged otherwise; `all_ships_sunk` returns
true exactly when that sum is 0, provided all counts start nonnegative. -/
theorem c3_sink_accounting_amended (s : Strategy) (x y : Int)
    (hwf : WFBoard s) (hx : 0 ≤ x) (hx2 : x < s.cols) (hy : 0 ≤ y)
    (hy2 : y < s.rows) (hpos : ∀ p ∈ s.ships_dict, 0 ≤ p.2) :
    ∃ s', register_attack s x y true true = some s' ∧
      ((s'.ships_dict = s.ships_dict ∧
        (dictLookup s.ships_dict ((s.current_hits.length + 1 : Nat) : Int)
            = none ∨
          ∃ c, dictLookup s.ships_dict
              ((s.current_hits.length + 1 : Nat) : Int) = some c ∧ c ≤ 0)) ∨
        (∃ c, dictLookup s.ships_dict
            ((s.current_hits.length + 1 : Nat) : Int) = some c ∧ 0 < c ∧
          sumCounts s'.ships_dict = sumCounts s.ships_dict - 1)) ∧
      (all_ships_sunk s' = true ↔ sumCounts s'.ships_dict = 0) := by
  obtain ⟨row, hrow, heq⟩ := register_attack_sunk_eq s x y hwf hx hx2 hy hy2
  set bW := s.enemy_board.set y.toNat (row.set x.toNat 'H') with hbW
  set s3 := hitState s x y bW with hs3
  refine ⟨_, heq, ?_, ?_⟩
  all_goals
    have hdict : ({ mark_surrounding_cells (identify_sunk_ship s3) with
        hit_queue := [], current_hits := [] } : Strategy).ships_dict =
        (identify_sunk_ship s3).ships_dict :=
      (markAll_sameFrame (identify_sunk_ship s3)
        (identify_sunk_ship s3).current_hits).2.2.1
  all_goals
    have hkey : ((s3.current_hits.length : Nat) : Int) =
        ((s.current_hits.length + 1 : Nat) : Int) := by
      rw [hs3]
      simp [hitState]
  all_goals
    have hd3 : s3.ships_dict = s.ships_dict := rfl
  · rcases identify_sunk_ship_dict s3 with ⟨hsame, hwhy⟩ | ⟨c, hl, hc, hset⟩
    · left
      rw [hkey, hd3] at hwhy
      exact ⟨by rw [hdict, hsame, hd3], hwhy⟩
    · right
      rw [hkey, hd3] at hl
      refine ⟨c, hl, hc, ?_⟩
      rw [hdict, hset, hkey, hd3]
      have := dictLookup_dictSet_sum s.ships_dict
        ((s.current_hits.length + 1 : Nat) : Int) c (c - 1) hl
      omega
  · have hnn : ∀ p ∈ ({ mark_surrounding_cells (identify_sunk_ship s3) with
        hit_queue := [], current_hits := [] } : Strategy).ships_dict,
        0 ≤ p.2 := by
      rw [hdict]
      rcases identify_sunk_ship_dict s3 with ⟨hsame, _⟩ | ⟨c, hl, hc, hset⟩
      · rw [hsame, hd3]; exact hpos
      · rw [hset, hd3]
        exact dictSet_nonneg _ _ _ hpos (by omega)
    rw [all_ships_sunk_iff, sumCounts_eq_zero_iff _ hnn]

/-- C3 witness: the concrete §8 scenario start (5×5 board, catalog sizes
2 and 3 each with count 1): hitting (0,1) then sinking at (1,1) drops the
remaining-count sum from 2 to 1, by `c3_sink_accounting_amended`. -/
theorem c3_witness :
    sumCounts ((register_attack
        ((register_attack (Strategy.init 5 5 [(2, 1), (3, 1)]) 0 1 true false).get
          (by decide)) 1 1 true true).get (by decide)).ships_dict
      = sumCounts ((register_attack (Strategy.init 5 5 [(2, 1), (3, 1)])
          0 1 true false).get (by decide)).ships_dict - 1 := by
  obtain ⟨s', heq, hsum, hiff⟩ :=
    c3_sink_accounting_amended
      ((register_attack (Strategy.init 5 5 [(2, 1), (3, 1)]) 0 1 true false).get
        (by decide)) 1 1 (by decide) (by decide) (by decide) (by decide)
      (by decide) (by decide)
  have hs' : (register_attack
      ((register_attack (Strategy.init 5 5 [(2, 1), (3, 1)]) 0 1 true false).get
        (by decide)) 1 1 true true).get (by decide) = s' := by
    have h2 := (Option.some_get (by decide :
      (register_attack ((register_attack (Strategy.init 5 5 [(2, 1), (3, 1)])
        0 1 true false).get (by decide)) 1 1 true true).isSome = true))
    exact Option.some.inj (h2.trans heq)
  rw [hs']
  rcases hsum with ⟨_, hwhy⟩ | ⟨c, hl, hc, hsum⟩
  · exfalso
    rcases hwhy with hnone | ⟨c, hsome, hc⟩
    · revert hnone; decide
    · have : c = 1 := by
        have h2 : dictLookup ((register_attack (Strategy.init 5 5
            [(2, 1), (3, 1)]) 0 1 true false).get (by decide)).ships_dict
            ((((register_attack (Strategy.init 5 5 [(2, 1), (3, 1)])
              0 1 true false).get (by decide)).current_hits.length + 1 : Nat)
              : Int) = some 1 := by decide
        rw [h2] at hsome
        exact (Option.some.inj hsome).symm
      omega
  · exact hsum

/-! ### Claim C4 -/

/-- C4: the claim that coordinate arguments are validated is violated:
`register_attack(-1, 0, ...)` on a 5×5 planner raises no error, records
(−1,0) as fired, and silently wraps the write to the last column, marking
cell (4,0) — while `register_attack(5, 0, ...)` raises only after having
mutated `shots_fired` and `available_shots`. -/
theorem c4_negative_coordinate_wraps :
    ((register_attack (Strategy.init 5 5 [(1, 1)]) (-1) 0 false false).map
      (fun s => (cellAt s.enemy_board 4 0, decide ((-1, 0) ∈ s.shots_fired)))
      = some (some 'M', true)) ∧
    (register_attack (Strategy.init 5 5 [(1, 1)]) 5 0 false false).isSome
      = false := by decide

/-! ### Claim C5 -/

/-- C5: on a hit that does not sink (in-bounds, straight run as the spec
asserts), the newly enqueued candidates are exactly the spec's: the four
orthogonal neighbours of a one-cell run, or the two cells beyond the run's
extremes along its shared axis, filtered to in-bounds still-candidate cells,
appended at the back of the queue. -/
theorem c5_target_candidates (s : Strategy) (x y : Int)
    (hwf : WFBoard s) (hx : 0 ≤ x) (hx2 : x < s.cols) (hy : 0 ≤ y)
    (hy2 : y < s.rows)
    (hsub : s.available_shots ⊆ allCells s.cols s.rows)
    (hax : s.current_hits = [] ∨
      (∀ d ∈ s.current_hits ++ [(x, y)], d.1 = x) ∨
      (∀ d ∈ s.current_hits ++ [(x, y)], d.2 = y)) :
    ∃ s', register_attack s x y true false = some s' ∧
      s'.hit_queue = s.hit_queue ++
        specTargets s.cols s.rows (s.available_shots.erase (x, y))
          (s.current_hits ++ [(x, y)]) := by
  obtain ⟨row, hrow, heq⟩ := register_attack_hit_eq s x y hwf hx hx2 hy hy2
  refine ⟨_, heq, ?_⟩
  have hq : ({ hitState s x y
      (s.enemy_board.set y.toNat (row.set x.toNat 'H')) with
      hit_queue := s.hit_queue ++
        get_target_cells (hitState s x y
          (s.enemy_board.set y.toNat (row.set x.toNat 'H'))) }).hit_queue =
      s.hit_queue ++ get_target_cells (hitState s x y
        (s.enemy_board.set y.toNat (row.set x.toNat 'H'))) := rfl
  rw [hq]
  congr 1
  refine get_target_cells_eq_spec
    (hitState s x y (s.enemy_board.set y.toNat (row.set x.toNat 'H'))) ?_ ?_
  · intro a ha
    exact hsub (Finset.erase_subset (x, y) s.available_shots ha)
  · intro c rest hch hne
    rcases hax with hnil | hax | hax
    · exfalso
      have : ([(x, y)] : List (Int × Int)) = c :: rest := by
        have h2 : s.current_hits ++ [(x, y)] = c :: rest := hch
        rw [hnil] at h2
        exact h2
      apply hne
      have := congrArg List.tail this
      simpa using this.symm
    · left
      intro d hd
      have hc : c ∈ s.current_hits ++ [(x, y)] := by
        have h2 : s.current_hits ++ [(x, y)] = c :: rest := hch
        rw [h2]
        exact List.mem_cons_self c rest
      have h1 := hax d hd
      have h2 := hax c hc
      rw [h1, h2]
    · right
      intro d hd
      have hc : c ∈ s.current_hits ++ [(x, y)] := by
        have h2 : s.current_hits ++ [(x, y)] = c :: rest := hch
        rw [h2]
        exact List.mem_cons_self c rest
      have h1 := hax d hd
      have h2 := hax c hc
      rw [h1, h2]

/-- C5 witness: first hit of a game at (2,2) on an empty 5×5 board, by
`c5_target_candidates` at a concrete state. -/
theorem c5_witness :
    ∃ s', register_attack (Strategy.init 5 5 [(2, 1)]) 2 2 true false
        = some s' ∧
      s'.hit_queue = (Strategy.init 5 5 [(2, 1)]).hit_queue ++
        specTargets (Strategy.init 5 5 [(2, 1)]).cols
          (Strategy.init 5 5 [(2, 1)]).rows
          ((Strategy.init 5 5 [(2, 1)]).available_shots.erase (2, 2))
          ((Strategy.init 5 5 [(2, 1)]).current_hits ++ [(2, 2)]) :=
  c5_target_candidates (Strategy.init 5 5 [(2, 1)]) 2 2 (by decide)
    (by decide) (by decide) (by decide) (by decide) (by decide) (Or.inl rfl)

/-! ### Claim C6 -/

/-- C6: a sinking hit clears the run and the pending queue (returning to
Hunt mode) and, for every in-bounds cell orthogonally adjacent to a cell of
the completed run, marks it Miss and removes it from the candidate set. -/
theorem c6_sunk_resolution (s : Strategy) (x y : Int)
    (hwf : WFBoard s) (hx : 0 ≤ x) (hx2 : x < s.cols) (hy : 0 ≤ y)
    (hy2 : y < s.rows) :
    ∃ s', register_attack s x y true true = some s' ∧
      s'.current_hits = [] ∧ s'.hit_queue = [] ∧
      ∀ n : Int × Int,
        n ∈ (s.current_hits ++ [(x, y)]).flatMap neighbors4 →
        0 ≤ n.1 → n.1 < s.cols → 0 ≤ n.2 → n.2 < s.rows →
        cellAt s'.enemy_board n.1.toNat n.2.toNat = some 'M' ∧
          n ∉ s'.available_shots := by
  obtain ⟨row, hrow, heq⟩ := register_attack_sunk_eq s x y hwf hx hx2 hy hy2
  refine ⟨_, heq, rfl, rfl, ?_⟩
  intro n hn h1 h2 h3 h4
  have hfm := identify_sunk_ship_fields
    (hitState s x y (s.enemy_board.set y.toNat (row.set x.toNat 'H')))
  have hwfm : WFBoard (identify_sunk_ship
      (hitState s x y (s.enemy_board.set y.toNat (row.set x.toNat 'H')))) := by
    unfold WFBoard
    rw [hfm.2.2.1, hfm.1, hfm.2.1]
    exact WFB_write s.enemy_board s.rows.toNat s.cols.toNat hwf
      x.toNat y.toNat row hrow 'H'
  have hmch : (identify_sunk_ship (hitState s x y
      (s.enemy_board.set y.toNat (row.set x.toNat 'H')))).current_hits =
      s.current_hits ++ [(x, y)] := hfm.2.2.2.2.2.2.1
  rcases List.mem_flatMap.mp hn with ⟨c, hc, hnc⟩
  have hmarks := markAll_marks
    (identify_sunk_ship (hitState s x y
      (s.enemy_board.set y.toNat (row.set x.toNat 'H')))).current_hits
    (identify_sunk_ship (hitState s x y
      (s.enemy_board.set y.toNat (row.set x.toNat 'H'))))
    c n (by rw [hmch]; exact hc) hnc hwfm h1
    (by rw [hfm.2.1]; exact h2) h3 (by rw [hfm.1]; exact h4)
  rw [mark_surrounding_cells_eq_markAll]
  exact hmarks

/-- C6 witness: sinking a single-cell run at (2,2) on a 5×5 board, by
`c6_sunk_resolution` at a concrete state. -/
theorem c6_witness :
    ∃ s', register_attack (Strategy.init 5 5 [(1, 1)]) 2 2 true true
        = some s' ∧
      s'.current_hits = [] ∧ s'.hit_queue = [] ∧
      ∀ n : Int × Int,
        n ∈ ((Strategy.init 5 5 [(1, 1)]).current_hits
          ++ [(2, 2)]).flatMap neighbors4 →
        0 ≤ n.1 → n.1 < (Strategy.init 5 5 [(1, 1)]).cols →
        0 ≤ n.2 → n.2 < (Strategy.init 5 5 [(1, 1)]).rows →
        cellAt s'.enemy_board n.1.toNat n.2.toNat = some 'M' ∧
          n ∉ s'.available_shots :=
  c6_sunk_resolution (Strategy.init 5 5 [(1, 1)]) 2 2 (by decide) (by decide)
    (by decide) (by decide) (by decide)

/-! ### Claim C7 -/

/-- C7: a miss call marks exactly the fired cell Miss, removes exactly it
from the candidate set, and leaves the catalog, the current run and the
pending queue unchanged. -/
theorem c7_miss_frame (s : Strategy) (x y : Int) (k : Bool)
    (hwf : WFBoard s) (hx : 0 ≤ x) (hx2 : x < s.cols) (hy : 0 ≤ y)
    (hy2 : y < s.rows) :
    ∃ s', register_attack s x y false k = some s' ∧
      s'.ships_dict = s.ships_dict ∧
      s'.current_hits = s.current_hits ∧
      s'.hit_queue = s.hit_queue ∧
      s'.available_shots = s.available_shots.erase (x, y) ∧
      ∀ i j : Nat, cellAt s'.enemy_board i j =
        if i = x.toNat ∧ j = y.toNat then some 'M'
        else cellAt s.enemy_board i j := by
  obtain ⟨row, hrow, heq⟩ := register_attack_miss_eq s x y k hwf hx hx2 hy hy2
  refine ⟨_, heq, rfl, rfl, rfl, rfl, ?_⟩
  intro i j
  have hrl : x.toNat < row.length := by
    have hmem : row ∈ s.enemy_board := by
      rcases List.getElem?_eq_some.mp hrow with ⟨hl, he⟩
      exact he ▸ List.getElem_mem hl
    rw [hwf.2 row hmem]
    omega
  exact cellAt_write s.enemy_board x.toNat y.toNat row hrow hrl 'M' i j

/-- C7 witness: a miss at (3,1) on a fresh 5×5 board, by `c7_miss_frame`
at a concrete state. -/
theorem c7_witness :
    ∃ s', register_attack (Strategy.init 5 5 [(1, 1)]) 3 1 false false
        = some s' ∧
      s'.ships_dict = (Strategy.init 5 5 [(1, 1)]).ships_dict ∧
      s'.current_hits = (Strategy.init 5 5 [(1, 1)]).current_hits ∧
      s'.hit_queue = (Strategy.init 5 5 [(1, 1)]).hit_queue ∧
      s'.available_shots =
        (Strategy.init 5 5 [(1, 1)]).available_shots.erase (3, 1) ∧
      ∀ i j : Nat, cellAt s'.enemy_board i j =
        if i = (3 : Int).toNat ∧ j = (1 : Int).toNat then some 'M'
        else cellAt (Strategy.init 5 5 [(1, 1)]).enemy_board i j :=
  c7_miss_frame (Strategy.init 5 5 [(1, 1)]) 3 1 false (by decide) (by decide)
    (by decide) (by decide) (by decide)

/-! ### Claim C9 -/

/-- C9: with an empty pending queue and an exhausted candidate set,
`get_next_attack` returns the sentinel `None` rather than raising. -/
theorem c9_next_attack_exhausted_none (s : Strategy)
    (pick : Finset (Int × Int) → Int × Int)
    (hq : s.hit_queue = []) (hav : s.available_shots = ∅) :
    (get_next_attack s pick).1 = none := by
  simp only [get_next_attack, hq, get_random_shot, hav]
  simp

/-- C9 witness: a 0×0 planner has an empty queue and no candidates, and
`get_next_attack` returns `none`, by `c9_next_attack_exhausted_none`. -/
theorem c9_witness :
    (get_next_attack (Strategy.init 0 0 []) (fun _ => (0, 0))).1 = none :=
  c9_next_attack_exhausted_none (Strategy.init 0 0 []) (fun _ => (0, 0)) rfl
    (by decide)

/-! ### Claim C10 -/

/-- What any successful `register_attack` call does to the catalog: either
it is untouched, or (on a sink) the binding of the completed run's length is
decremented, and only when that key exists with a positive count. -/
theorem register_attack_ships_dict (s s' : Strategy) (x y : Int) (h k : Bool)
    (hr : register_attack s x y h k = some s') :
    s'.ships_dict = s.ships_dict ∨
      ∃ c, dictLookup s.ships_dict ((s.current_hits.length + 1 : Nat) : Int)
          = some c ∧ 0 < c ∧
        s'.ships_dict = dictSet s.ships_dict
          ((s.current_hits.length + 1 : Nat) : Int) (c - 1) := by
  cases h with
  | false =>
      simp only [register_attack, Bool.false_eq_true, if_false] at hr
      split at hr
      · exact Option.noConfusion hr
      · left
        obtain rfl := Option.some.inj hr
        rfl
  | true =>
      cases k with
      | false =>
          simp only [register_attack, Bool.false_eq_true, if_false,
            if_true] at hr
          split at hr
          · exact Option.noConfusion hr
          · left
            obtain rfl := Option.some.inj hr
            rfl
      | true =>
          simp only [register_attack, if_true] at hr
          split at hr
          · exact Option.noConfusion hr
          · rename_i b hb
            obtain rfl := Option.some.inj hr
            have hdict : ({ mark_surrounding_cells (identify_sunk_ship
                { s with
                  shots_fired := insert (x, y) s.shots_fired
                  available_shots := s.available_shots.erase (x, y)
                  enemy_board := b
                  current_hits := s.current_hits ++ [(x, y)] }) with
                hit_queue := [], current_hits := [] } : Strategy).ships_dict =
                (identify_sunk_ship
                  { s with
                    shots_fired := insert (x, y) s.shots_fired
                    available_shots := s.available_shots.erase (x, y)
                    enemy_board := b
                    current_hits := s.current_hits ++ [(x, y)] }).ships_dict :=
              (markAll_sameFrame _ _).2.2.1
            rw [hdict]
            have := identify_sunk_ship_dict
              { s with
                shots_fired := insert (x, y) s.shots_fired
                available_shots := s.available_shots.erase (x, y)
                enemy_board := b
                current_hits := s.current_hits ++ [(x, y)] }
            simp only [List.length_append, List.length_cons,
              List.length_nil] at this
            rcases this with ⟨hsame, _⟩ | ⟨c, hl, hc, hset⟩
            · left
              exact hsame
            · right
              exact ⟨c, hl, hc, hset⟩

/-- Preservation of nonnegative counts across one call. -/
theorem register_attack_nonneg (s s' : Strategy) (x y : Int) (h k : Bool)
    (hr : register_attack s x y h k = some s')
    (hpos : ∀ p ∈ s.ships_dict, 0 ≤ p.2) :
    ∀ p ∈ s'.ships_dict, 0 ≤ p.2 := by
  rcases register_attack_ships_dict s s' x y h k hr with heq | ⟨c, _, hc, heq⟩
  · rw [heq]; exact hpos
  · rw [heq]
    exact dictSet_nonneg _ _ _ hpos (by omega)

theorem applyTrace_nonneg (moves : List (Int × Int × Bool × Bool)) :
    ∀ s s' : Strategy, (∀ p ∈ s.ships_dict, 0 ≤ p.2) →
      applyTrace s moves = some s' → ∀ p ∈ s'.ships_dict, 0 ≤ p.2 := by
  induction moves with
  | nil =>
      intro s s' hpos htr
      obtain rfl := Option.some.inj htr
      exact hpos
  | cons m rest ih =>
      intro s s' hpos htr
      simp only [applyTrace] at htr
      rcases Option.bind_eq_some.mp htr with ⟨s1, hr1, hrest⟩
      exact ih s1 s' (register_attack_nonneg s s1 m.1 m.2.1 m.2.2.1 m.2.2.2
        hr1 hpos) hrest

/-- C10: starting from a catalog of nonnegative counts, every sequence of
successful `register_attack` calls keeps every remaining-ship count ≥ 0;
and a single call decrements a binding only when the completed run's length
is a key with a positive count (otherwise the catalog is untouched). -/
theorem c10_counts_nonneg :
    (∀ (rows cols : Int) (ships : List (Int × Int))
        (moves : List (Int × Int × Bool × Bool)) (s' : Strategy),
        (∀ p ∈ ships, 0 ≤ p.2) →
        applyTrace (Strategy.init rows cols ships) moves = some s' →
        ∀ p ∈ s'.ships_dict, 0 ≤ p.2) ∧
      (∀ (s s' : Strategy) (x y : Int) (h k : Bool),
        register_attack s x y h k = some s' →
        s'.ships_dict = s.ships_dict ∨
          ∃ c, dictLookup s.ships_dict
              ((s.current_hits.length + 1 : Nat) : Int) = some c ∧ 0 < c ∧
            s'.ships_dict = dictSet s.ships_dict
              ((s.current_hits.length + 1 : Nat) : Int) (c - 1)) := by
  constructor
  · intro rows cols ships moves s' hpos htr
    exact applyTrace_nonneg moves (Strategy.init rows cols ships) s' hpos htr
  · intro s s' x y h k hr
    exact register_attack_ships_dict s s' x y h k hr

/-- C10 witness: a sunk call whose run length matches no catalog key leaves
the count of the size-2 ship at 1 ≥ 0, by `c10_counts_nonneg` applied to a
concrete one-move trace. -/
theorem c10_witness :
    (0 : Int) ≤ (((2 : Int), (1 : Int)) : Int × Int).2 :=
  c10_counts_nonneg.1 5 5 [(2, 1)] [(0, 0, true, true)]
    ((applyTrace (Strategy.init 5 5 [(2, 1)]) [(0, 0, true, true)]).get
      (by decide))
    (by decide) (Option.some_get _).symm ((2 : Int), (1 : Int)) (by decide)

/-- C8: with an empty catalog, `place_ships` succeeds as a no-op whenever it
is allowed at least one attempt: it raises no error and returns the
all-Empty grid (every in-bounds cell 0). -/
theorem c8_place_ships_empty_catalog (rows cols : Nat)
    (shapes : Int → List (List (Int × Int))) (rng : Nat → Nat)
    (inner outerBudget t : Nat) (houter : 0 < outerBudget) :
    place_ships rows cols [] shapes rng inner outerBudget t =
        Except.ok (emptyOwnBoard rows cols) ∧
      ∀ i j : Nat, i < cols → j < rows →
        ownCellAt (emptyOwnBoard rows cols) i j = some 0 := by
  constructor
  · cases outerBudget with
    | zero => omega
    | succ o => rfl
  · intro i j hi hj
    unfold ownCellAt emptyOwnBoard
    rw [List.getElem?_replicate, if_pos hj]
    simp [List.getElem?_replicate, hi]

/-- C8 witness: a 10×10 board with an empty catalog and arbitrary injected
randomness places nothing and returns the all-water board, by
`c8_place_ships_empty_catalog`. -/
theorem c8_witness :
    place_ships 10 10 [] (fun _ => []) (fun _ => 0) 5 3 0 =
      Except.ok (emptyOwnBoard 10 10) :=
  (c8_place_ships_empty_catalog 10 10 (fun _ => []) (fun _ => 0) 5 3 0
    (by decide)).1

end Battleships
